import Mathlib

/-!
Verification development for the aggregation core of the resale-analytics
dashboard (`app.py`).

Modelling conventions (shallow embedding of the pandas code):

* A row of the loaded frame `df` becomes a `Record`.  The timestamp column
  (source: the string column parsed with strptime into datetimes) is
  modelled as a number of seconds counted from a fixed epoch midnight, and
  the model's epoch day (day 0) is a Monday.  The two derived columns
  (weekday name and 12-hour label) are in the source computed from the
  timestamp at load time with strftime; here they are the pure functions
  `daysOfWk` and `checkInHour` of `Record.checkInTime`, which agree with
  strftime "%A" and "%I %p" under the epoch convention.
* The record weight column (source column name contains a space, so it is
  renamed `numberOfRecords`) is a natural number; the source sums it with
  pandas `.sum()`.
* The clinic/category filter (source: boolean mask with `==` and `.isin`)
  becomes `List.filter` with string equality and list membership.
* The date slice (source: `sort_values` on the timestamp column, then
  `set_index` and label slicing with string bounds at second resolution)
  becomes an ascending sort followed by a filter keeping the timestamps
  `t` with `start ≤ t ∧ t ≤ end`: pandas label slicing on a DatetimeIndex
  is inclusive of both bound labels, and with second-resolution bounds the
  expanded right bound covers exactly the bound second.  The pandas sort
  kind is not stable, and every consumer of the sliced frame only sums
  over it, so any ascending-by-timestamp sort is a faithful model; we use
  a structural insertion sort so that terms evaluate by kernel reduction.
* The accumulation loop writes `z[ind_y][ind_x] += s` for `ind_y` ranging
  over the 7 enumerated weekday rows and `ind_x` over the 12 enumerated
  hour labels, on a matrix allocated as `np.zeros((7, 24))`.  Each
  iteration touches a distinct cell, so the loop is rendered as an
  index-aware map (`mapIdx`) that adds the per-cell sum at exactly the
  enumerated index pairs and leaves every other cell unchanged.
* Dates arriving from the date picker are calendar days; the callback
  appends " 00:00:00" to both, i.e. it passes the midnight timestamps of
  the two days.  A calendar day is modelled as a day number `d`, whose
  midnight timestamp is `d * 86400`.
-/

/-- One row of the loaded data frame: clinic name, admission-source
category (after the load-time fill of missing values), check-in timestamp
in seconds from the epoch (day 0 of the model is a Monday), and the
numeric weight of the row. -/
structure Record where
  clinicName : String
  admitSource : String
  checkInTime : Nat
  numberOfRecords : Nat
deriving DecidableEq

/-- The fixed weekday row labels, in the source's order. -/
def day_list : List String :=
  ["Monday", "Tuesday", "Wednesday", "Thursday", "Friday", "Saturday", "Sunday"]

/-- Zero-padded two-digit rendering of a number below 100, as strftime does. -/
def two_digit (n : Nat) : String :=
  if n < 10 then "0" ++ toString n else toString n

/-- The strftime "%I %p" rendering of an hour of day (0..23): hour on the
12-hour clock, zero padded, followed by AM or PM. -/
def hourLabelOf (h : Nat) : String :=
  two_digit (if h % 12 = 0 then 12 else h % 12) ++ (if h < 12 then " AM" else " PM")

/-- The fixed column labels: the hours 7..18 rendered on the 12-hour
clock, i.e. "07 AM" through "06 PM". -/
def x_axis : List String :=
  (List.range 12).map (fun i => hourLabelOf (7 + i))

/-- The derived weekday column: the weekday name of the timestamp.  Day 0
of the epoch is a Monday, so the weekday index is the day number mod 7. -/
def daysOfWk (r : Record) : String :=
  day_list.getD (r.checkInTime / 86400 % 7) ""

/-- The derived hour column: the strftime "%I %p" label of the
timestamp's hour of day. -/
def checkInHour (r : Record) : String :=
  hourLabelOf (r.checkInTime % 86400 / 3600)

/-- Insert a record into a list sorted ascending by timestamp. -/
def insertSorted (r : Record) : List Record → List Record
  | [] => [r]
  | s :: rest =>
    if r.checkInTime ≤ s.checkInTime then r :: s :: rest else s :: insertSorted r rest

/-- Ascending sort by the timestamp column (source: sort_values on the
check-in time column). -/
def sortValues : List Record → List Record
  | [] => []
  | r :: rest => insertSorted r (sortValues rest)

/-- The clinic/category mask of the accumulation loop and of the totals
table: keep the records of one clinic whose category is in the selected
list (an empty selection list keeps nothing). -/
def clinicFilter (df : List Record) (clinic : String) (cats : List String) : List Record :=
  df.filter (fun r => r.clinicName == clinic && cats.contains r.admitSource)

/-- The date slice: sort ascending by timestamp, then keep the block of
records whose timestamp lies between the two bounds, both inclusive
(pandas label slicing is inclusive of both endpoint labels, and the
callback's bounds have second resolution, matching the data). -/
def dateSlice (rs : List Record) (start stop : Nat) : List Record :=
  (sortValues rs).filter (fun r => decide (start ≤ r.checkInTime) && decide (r.checkInTime ≤ stop))

/-- The per-cell sum of the loop body: sum of the weight column over the
day-filtered records whose hour label equals the cell's label. -/
def sumOfRecord (filtered_day : List Record) (x_val : String) : Nat :=
  ((filtered_day.filter (fun r => checkInHour r == x_val)).map (fun r => r.numberOfRecords)).sum

/-- The all-zero matrix, as allocated by np.zeros. -/
def npZeros (m n : Nat) : List (List Nat) :=
  List.replicate m (List.replicate n 0)

/-- Map with the element's index, starting from a given index. -/
def mapIdxFrom (f : Nat → α → β) : Nat → List α → List β
  | _, [] => []
  | i, a :: as => f i a :: mapIdxFrom f (i + 1) as

/-- Map with the element's index. -/
def mapIdx (f : Nat → α → β) (l : List α) : List β :=
  mapIdxFrom f 0 l

/-- One pass of the accumulation loop for a single clinic: for every
enumerated pair of a weekday row (7 of them) and an hour-label column (12
of them), add the per-cell sum of the clinic's filtered records into that
cell; all other cells of the 7×24 matrix are left unchanged.  The source
writes this as nested enumerated loops doing in-place `+=` on distinct
cells, which this index-aware map renders cell by cell. -/
def addClinic (filtered : List Record) (z : List (List Nat)) : List (List Nat) :=
  mapIdx (fun ind_y row =>
    mapIdx (fun ind_x v =>
      if ind_y < day_list.length ∧ ind_x < x_axis.length then
        v + sumOfRecord (filtered.filter (fun r => daysOfWk r == day_list.getD ind_y ""))
              (x_axis.getD ind_x "")
      else v) row) z

/-- The z matrix of the heatmap: start from np.zeros((7, 24)) and, for
each clinic of the selection in order, filter that clinic's records by
category, sort and date-slice them, and accumulate them into the cells. -/
def heatZ (df : List Record) (start stop : Nat) (clinics cats : List String) : List (List Nat) :=
  clinics.foldl
    (fun z clinic => addClinic (dateSlice (clinicFilter df clinic cats) start stop) z)
    (npZeros 7 24)

/-- The heatmap payload: the 12 hour labels on x, the 7 weekday names on
y, and the accumulated z matrix. -/
structure HeatmapData where
  x : List String
  y : List String
  z : List (List Nat)
deriving DecidableEq

/-- The figure-producing aggregation (layout and colour fields of the
source are presentation only and are not modelled). -/
def generate_patient_volume_heatmap (df : List Record) (start stop : Nat)
    (clinics cats : List String) : HeatmapData :=
  { x := x_axis, y := day_list, z := heatZ df start stop clinics cats }

/-- The heatmap callback: both picker dates are calendar days, and the
source appends " 00:00:00" to each, i.e. the bounds passed down are the
midnight timestamps of the two days. -/
def update_heatmap (df : List Record) (start_date end_date : Nat)
    (clinics cats : List String) : HeatmapData :=
  generate_patient_volume_heatmap df (start_date * 86400) (end_date * 86400) clinics cats

/-- One row of the totals table. -/
structure TotalsRow where
  clinicName : String
  totalRecords : Nat
deriving DecidableEq

/-- The totals callback: for a non-empty selection, one row per selected
clinic in the given order, whose total is the sum of the weight column
over that clinic's records matching the category selection — no date
restriction; an empty selection returns the empty list. -/
def update_patient_volume_table (df : List Record) (clinics cats : List String) :
    List TotalsRow :=
  if clinics.isEmpty then []
  else clinics.map (fun clinic =>
    { clinicName := clinic,
      totalRecords := ((clinicFilter df clinic cats).map (fun r => r.numberOfRecords)).sum })

/-- The heatmap aggregation as a store-passing call: the result together
with the record store the call leaves behind.  Every frame operation the
source performs (boolean-mask selection, sort_values, set_index, label
slicing, summation) returns a fresh object and the loaded global frame is
never reassigned or modified in place, so the store left behind is the
store received. -/
def heatmapRun (df : List Record) (start stop : Nat) (clinics cats : List String) :
    List (List Nat) × List Record :=
  (heatZ df start stop clinics cats, df)

/-- The totals aggregation as a store-passing call; as for `heatmapRun`,
the source never mutates the loaded frame. -/
def tableRun (df : List Record) (clinics cats : List String) :
    List TotalsRow × List Record :=
  (update_patient_volume_table df clinics cats, df)

/-- The contribution of one clinic to one cell: the per-cell sum of the
clinic's filtered, sorted and date-sliced records at the cell's weekday
and hour label. -/
def contrib (df : List Record) (start stop : Nat) (cats : List String)
    (clinic : String) (iy ix : Nat) : Nat :=
  sumOfRecord
    ((dateSlice (clinicFilter df clinic cats) start stop).filter
      (fun r => daysOfWk r == day_list.getD iy ""))
    (x_axis.getD ix "")

/-- Closed form of the accumulated matrix: 7 rows; in each row the 12
labelled columns hold the clinic-wise sums of contributions and the 12
trailing columns of the np.zeros((7, 24)) allocation stay zero. -/
def closedMatrix (df : List Record) (start stop : Nat) (cats clinics : List String) :
    List (List Nat) :=
  (List.range 7).map (fun iy =>
    (List.range 12).map (fun ix => (clinics.map (fun c => contrib df start stop cats c iy ix)).sum)
      ++ List.replicate 12 0)

/-- The cell of a matrix at a row/column index pair (0 outside). -/
def cellOf (z : List (List Nat)) (iy ix : Nat) : Nat :=
  (z.getD iy []).getD ix 0

/-- The sum of all cells of a matrix. -/
def matrixSum (z : List (List Nat)) : Nat :=
  (z.map List.sum).sum

/-- The sum of the weight column over all records selected by the filter
pipeline, clinic by clinic (a clinic appearing twice in the selection is
counted per occurrence, as in the accumulation loop). -/
def filteredCountSum (df : List Record) (start stop : Nat) (clinics cats : List String) : Nat :=
  (clinics.map (fun c => ((dateSlice (clinicFilter df c cats) start stop).map
    (fun r => r.numberOfRecords)).sum)).sum

/-- Scale every cell of a matrix by a constant. -/
def matScale (k : Nat) (z : List (List Nat)) : List (List Nat) :=
  z.map (fun row => row.map (fun v => k * v))

theorem length_mapIdxFrom (f : Nat → α → β) (i : Nat) (l : List α) :
    (mapIdxFrom f i l).length = l.length := by
  induction l generalizing i with
  | nil => rfl
  | cons a as ih => simp [mapIdxFrom, ih]

theorem getElem?_mapIdxFrom (f : Nat → α → β) (i j : Nat) (l : List α) :
    (mapIdxFrom f i l)[j]? = l[j]?.map (f (i + j)) := by
  induction l generalizing i j with
  | nil => simp [mapIdxFrom]
  | cons a as ih =>
    cases j with
    | zero => simp [mapIdxFrom]
    | succ j =>
      have h : i + 1 + j = i + (j + 1) := by omega
      simp [mapIdxFrom, ih, h]

theorem length_mapIdx (f : Nat → α → β) (l : List α) :
    (mapIdx f l).length = l.length :=
  length_mapIdxFrom f 0 l

theorem getElem?_mapIdx (f : Nat → α → β) (j : Nat) (l : List α) :
    (mapIdx f l)[j]? = l[j]?.map (f j) := by
  have h := getElem?_mapIdxFrom f 0 j l
  simpa using h

theorem map_length_mapIdxFrom (g : Nat → List Nat → List Nat)
    (hg : ∀ j row, (g j row).length = row.length) :
    ∀ (i : Nat) (z : List (List Nat)),
      (mapIdxFrom g i z).map List.length = z.map List.length := by
  intro i z
  induction z generalizing i with
  | nil => rfl
  | cons a as ih => simp [mapIdxFrom, hg, ih]

theorem day_list_length : day_list.length = 7 := rfl

theorem x_axis_length : x_axis.length = 12 := rfl

theorem addClinic_map_length (filtered : List Record) (z : List (List Nat)) :
    (addClinic filtered z).map List.length = z.map List.length := by
  unfold addClinic mapIdx
  exact map_length_mapIdxFrom _ (fun j row => length_mapIdxFrom _ _ _) 0 z

theorem cellOf_addClinic (filtered : List Record) (z : List (List Nat))
    (iy ix : Nat) (hy7 : iy < 7) (hy : iy < z.length) (hx : ix < (z.getD iy []).length) :
    cellOf (addClinic filtered z) iy ix =
      cellOf z iy ix +
        (if ix < 12 then
          sumOfRecord (filtered.filter (fun r => daysOfWk r == day_list.getD iy ""))
            (x_axis.getD ix "")
        else 0) := by
  have hz : z[iy]? = some (z.getD iy []) := by
    rw [List.getElem?_eq_getElem hy, List.getD_eq_getElem z [] hy]
  have hrow : (z.getD iy [])[ix]? = some ((z.getD iy []).getD ix 0) := by
    rw [List.getElem?_eq_getElem hx, List.getD_eq_getElem _ 0 hx]
  simp only [cellOf, List.getD_eq_getElem?_getD]
  unfold addClinic
  rw [getElem?_mapIdx, hz]
  simp only [Option.map_some', Option.getD_some]
  rw [getElem?_mapIdx, hrow]
  simp only [Option.map_some', Option.getD_some, day_list_length, x_axis_length]
  by_cases h12 : ix < 12
  · rw [if_pos ⟨hy7, h12⟩, if_pos h12]
    simp [List.getD_eq_getElem?_getD]
  · rw [if_neg (fun hc => h12 hc.2), if_neg h12]
    omega

theorem row_length_of_shape {z : List (List Nat)}
    (hz : z.map List.length = List.replicate 7 24) {iy : Nat} (hy : iy < 7) :
    (z.getD iy []).length = 24 := by
  have hlen : z.length = 7 := by simpa using congrArg List.length hz
  have h1 : iy < z.length := by omega
  have hm : iy < (z.map List.length).length := by simpa [hlen] using hy
  have h2 : (z.map List.length)[iy] = (z[iy]).length := List.getElem_map _
  have h3 : (z.map List.length)[iy] = 24 := by
    rw [List.getElem_of_eq hz hm]
    exact List.getElem_replicate _ _
  rw [List.getD_eq_getElem z [] h1, ← h2, h3]

theorem shape_addClinic {z : List (List Nat)} (filtered : List Record)
    (hz : z.map List.length = List.replicate 7 24) :
    (addClinic filtered z).map List.length = List.replicate 7 24 := by
  rw [addClinic_map_length, hz]

theorem heatFold_shape (df : List Record) (start stop : Nat) (cats : List String) :
    ∀ (clinics : List String) (z : List (List Nat)),
      z.map List.length = List.replicate 7 24 →
      ((clinics.foldl
        (fun z clinic => addClinic (dateSlice (clinicFilter df clinic cats) start stop) z)
        z).map List.length) = List.replicate 7 24 := by
  intro clinics
  induction clinics with
  | nil => intro z hz; simpa using hz
  | cons c cs ih =>
    intro z hz
    rw [List.foldl_cons]
    exact ih _ (shape_addClinic _ hz)

theorem cellOf_heatFold (df : List Record) (start stop : Nat) (cats : List String) :
    ∀ (clinics : List String) (z : List (List Nat)),
      z.map List.length = List.replicate 7 24 →
      ∀ iy ix, iy < 7 → ix < 24 →
      cellOf (clinics.foldl
        (fun z clinic => addClinic (dateSlice (clinicFilter df clinic cats) start stop) z)
        z) iy ix
        = cellOf z iy ix +
            (if ix < 12 then
              (clinics.map (fun c => contrib df start stop cats c iy ix)).sum
            else 0) := by
  intro clinics
  induction clinics with
  | nil => intro z hz iy ix hy hx; simp
  | cons c cs ih =>
    intro z hz iy ix hy hx
    have hlen : z.length = 7 := by simpa using congrArg List.length hz
    have hrowlen : (z.getD iy []).length = 24 := row_length_of_shape hz hy
    rw [List.foldl_cons,
      ih _ (shape_addClinic _ hz) iy ix hy hx,
      cellOf_addClinic _ _ _ _ hy (by omega) (by omega)]
    by_cases h12 : ix < 12
    · simp only [if_pos h12, List.map_cons, List.sum_cons, contrib]
      omega
    · simp only [if_neg h12]

theorem npZeros_shape : (npZeros 7 24).map List.length = List.replicate 7 24 := by
  simp [npZeros]

theorem cellOf_npZeros (iy ix : Nat) : cellOf (npZeros 7 24) iy ix = 0 := by
  unfold cellOf npZeros
  simp only [List.getD_eq_getElem?_getD, List.getElem?_replicate]
  rcases Nat.lt_or_ge iy 7 with h | h
  · rw [if_pos h]
    simp only [Option.getD_some]
    rw [List.getElem?_replicate]
    split <;> simp
  · rw [if_neg (by omega)]
    simp

theorem heatZ_shape (df : List Record) (start stop : Nat) (clinics cats : List String) :
    (heatZ df start stop clinics cats).map List.length = List.replicate 7 24 := by
  unfold heatZ
  exact heatFold_shape df start stop cats clinics (npZeros 7 24) npZeros_shape

theorem heatZ_cell (df : List Record) (start stop : Nat) (clinics cats : List String)
    (iy ix : Nat) (hy : iy < 7) (hx : ix < 24) :
    cellOf (heatZ df start stop clinics cats) iy ix
      = if ix < 12 then (clinics.map (fun c => contrib df start stop cats c iy ix)).sum
        else 0 := by
  unfold heatZ
  rw [cellOf_heatFold df start stop cats clinics (npZeros 7 24) npZeros_shape iy ix hy hx,
    cellOf_npZeros, Nat.zero_add]

theorem map_const_range (n : Nat) (b : β) :
    (List.range n).map (fun _ => b) = List.replicate n b := by
  rw [List.map_const']
  simp

theorem closedMatrix_shape (df : List Record) (start stop : Nat) (cats clinics : List String) :
    (closedMatrix df start stop cats clinics).map List.length = List.replicate 7 24 := by
  unfold closedMatrix
  rw [List.map_map]
  have h : (List.length ∘ fun iy =>
      ((List.range 12).map fun ix =>
        (clinics.map (fun c => contrib df start stop cats c iy ix)).sum)
        ++ List.replicate 12 0) = fun _ => 24 := by
    funext iy
    simp
  rw [h, map_const_range]

theorem cellOf_closedMatrix (df : List Record) (start stop : Nat) (cats clinics : List String)
    (iy ix : Nat) (hy : iy < 7) (hx : ix < 24) :
    cellOf (closedMatrix df start stop cats clinics) iy ix
      = if ix < 12 then (clinics.map (fun c => contrib df start stop cats c iy ix)).sum
        else 0 := by
  unfold closedMatrix cellOf
  simp only [List.getD_eq_getElem?_getD]
  rw [List.getElem?_map, List.getElem?_range hy]
  simp only [Option.map_some', Option.getD_some]
  by_cases h12 : ix < 12
  · rw [List.getElem?_append_left (by simpa using h12), List.getElem?_map,
      List.getElem?_range h12]
    simp [h12]
  · rw [List.getElem?_append_right (by simpa using h12)]
    simp only [List.length_map, List.length_range, List.getElem?_replicate]
    rw [if_pos (by omega)]
    simp [h12]

theorem matrix_ext {z w : List (List Nat)}
    (hz : z.map List.length = List.replicate 7 24)
    (hw : w.map List.length = List.replicate 7 24)
    (hc : ∀ iy ix, iy < 7 → ix < 24 → cellOf z iy ix = cellOf w iy ix) : z = w := by
  have hzl : z.length = 7 := by simpa using congrArg List.length hz
  have hwl : w.length = 7 := by simpa using congrArg List.length hw
  apply List.ext_getElem (by omega)
  intro iy h1 h2
  have hy7 : iy < 7 := by omega
  have e1 : (z[iy]).length = 24 := by
    have := row_length_of_shape hz hy7
    rwa [List.getD_eq_getElem z [] h1] at this
  have e2 : (w[iy]).length = 24 := by
    have := row_length_of_shape hw hy7
    rwa [List.getD_eq_getElem w [] h2] at this
  apply List.ext_getElem (by omega)
  intro ix hx1 hx2
  have hx24 : ix < 24 := by omega
  have := hc iy ix hy7 hx24
  unfold cellOf at this
  rwa [List.getD_eq_getElem z [] h1, List.getD_eq_getElem w [] h2,
    List.getD_eq_getElem _ 0 hx1, List.getD_eq_getElem _ 0 hx2] at this

theorem heatZ_eq_closedMatrix (df : List Record) (start stop : Nat)
    (clinics cats : List String) :
    heatZ df start stop clinics cats = closedMatrix df start stop cats clinics :=
  matrix_ext (heatZ_shape df start stop clinics cats)
    (closedMatrix_shape df start stop cats clinics)
    (fun iy ix hy hx => by
      rw [heatZ_cell df start stop clinics cats iy ix hy hx,
        cellOf_closedMatrix df start stop cats clinics iy ix hy hx])

theorem mem_insertSorted {a r : Record} {l : List Record} :
    a ∈ insertSorted r l ↔ a = r ∨ a ∈ l := by
  induction l with
  | nil => simp [insertSorted]
  | cons s rest ih =>
    unfold insertSorted
    split
    · simp
    · simp only [List.mem_cons, ih]
      tauto

theorem mem_sortValues {a : Record} {l : List Record} :
    a ∈ sortValues l ↔ a ∈ l := by
  induction l with
  | nil => simp [sortValues]
  | cons r rest ih =>
    simp [sortValues, mem_insertSorted, ih]

theorem mem_of_mem_dateSlice {a : Record} {l : List Record} {start stop : Nat}
    (h : a ∈ dateSlice l start stop) : a ∈ l := by
  unfold dateSlice at h
  exact mem_sortValues.mp (List.mem_of_mem_filter h)

theorem sum_map_add (l : List α) (f g : α → Nat) :
    (l.map (fun x => f x + g x)).sum = (l.map f).sum + (l.map g).sum := by
  induction l with
  | nil => rfl
  | cons a as ih =>
    simp only [List.map_cons, List.sum_cons, ih]
    omega

theorem sum_if_eq_mem (s : String) (c : Nat) :
    ∀ (l : List String), l.Nodup →
      (l.map (fun x => if s == x then c else 0)).sum = if s ∈ l then c else 0 := by
  intro l
  induction l with
  | nil => intro _; simp
  | cons a as ih =>
    intro hnd
    have hnd' : as.Nodup := (List.nodup_cons.mp hnd).2
    have hna : a ∉ as := (List.nodup_cons.mp hnd).1
    rw [List.map_cons, List.sum_cons, ih hnd']
    by_cases h : s = a
    · subst h
      rw [if_pos (by simp), if_pos (List.mem_cons_self s as), if_neg hna]
      omega
    · rw [if_neg (by simpa using h)]
      by_cases hm : s ∈ as
      · rw [if_pos hm, if_pos (List.mem_cons_of_mem a hm)]
        omega
      · rw [if_neg hm, if_neg (by simp [List.mem_cons, h, hm])]

theorem day_list_nodup : day_list.Nodup := by decide

theorem x_axis_nodup : x_axis.Nodup := by decide

theorem daysOfWk_mem (r : Record) : daysOfWk r ∈ day_list := by
  unfold daysOfWk
  have h : r.checkInTime / 86400 % 7 < day_list.length := by
    rw [day_list_length]; omega
  rw [List.getD_eq_getElem day_list "" h]
  exact List.getElem_mem h

theorem x_axis_getD_mem {ix : Nat} (h : ix < 12) : x_axis.getD ix "" ∈ x_axis := by
  have h' : ix < x_axis.length := by rw [x_axis_length]; omega
  rw [List.getD_eq_getElem x_axis "" h']
  exact List.getElem_mem h'

theorem sumOfRecord_cons (r : Record) (rest : List Record) (x : String) :
    sumOfRecord (r :: rest) x
      = (if checkInHour r == x then r.numberOfRecords else 0) + sumOfRecord rest x := by
  unfold sumOfRecord
  rw [List.filter_cons]
  split
  · simp [*]
  · simp [*]

theorem sumOfRecord_filter_cons (r : Record) (t : List Record) (d x : String) :
    sumOfRecord ((r :: t).filter (fun q => daysOfWk q == d)) x
      = (if daysOfWk r == d then (if checkInHour r == x then r.numberOfRecords else 0) else 0)
        + sumOfRecord (t.filter (fun q => daysOfWk q == d)) x := by
  by_cases h : (daysOfWk r == d) = true
  · rw [List.filter_cons, if_pos h, sumOfRecord_cons, if_pos h]
  · rw [List.filter_cons, if_neg h, if_neg h]
    omega

set_option maxHeartbeats 1000000 in
theorem bucket_sum_cons_inner (r : Record) (t : List Record) (d : String) :
    (x_axis.map (fun x =>
        sumOfRecord ((r :: t).filter (fun q => daysOfWk q == d)) x)).sum
      = (if daysOfWk r == d then
          (if checkInHour r ∈ x_axis then r.numberOfRecords else 0) else 0)
        + (x_axis.map (fun x =>
            sumOfRecord (t.filter (fun q => daysOfWk q == d)) x)).sum := by
  have h1 : (x_axis.map (fun x =>
      sumOfRecord ((r :: t).filter (fun q => daysOfWk q == d)) x))
      = x_axis.map (fun x =>
        (if daysOfWk r == d then
          (if checkInHour r == x then r.numberOfRecords else 0) else 0)
        + sumOfRecord (t.filter (fun q => daysOfWk q == d)) x) :=
    List.map_congr_left (fun x _ => sumOfRecord_filter_cons r t d x)
  rw [h1, sum_map_add x_axis
    (fun x => (if daysOfWk r == d then
      (if checkInHour r == x then r.numberOfRecords else 0) else 0))
    (fun x => sumOfRecord (t.filter (fun q => daysOfWk q == d)) x)]
  congr 1
  by_cases h : (daysOfWk r == d) = true
  · simp only [if_pos h]
    exact sum_if_eq_mem (checkInHour r) r.numberOfRecords x_axis x_axis_nodup
  · simp only [if_neg h]
    simp

set_option maxHeartbeats 1000000 in
theorem bucket_sum_cons (r : Record) (t : List Record) :
    (day_list.map (fun d => (x_axis.map (fun x =>
        sumOfRecord ((r :: t).filter (fun q => daysOfWk q == d)) x)).sum)).sum
      = (if checkInHour r ∈ x_axis then r.numberOfRecords else 0)
        + (day_list.map (fun d => (x_axis.map (fun x =>
            sumOfRecord (t.filter (fun q => daysOfWk q == d)) x)).sum)).sum := by
  rw [List.map_congr_left (fun d _ => bucket_sum_cons_inner r t d)]
  rw [sum_map_add day_list
    (fun d => (if daysOfWk r == d then
      (if checkInHour r ∈ x_axis then r.numberOfRecords else 0) else 0))
    (fun d => (x_axis.map (fun x =>
      sumOfRecord (t.filter (fun q => daysOfWk q == d)) x)).sum)]
  congr 1
  rw [sum_if_eq_mem (daysOfWk r) _ day_list day_list_nodup, if_pos (daysOfWk_mem r)]

set_option maxHeartbeats 1000000 in
theorem bucket_sum :
    ∀ (l : List Record),
      (day_list.map (fun d => (x_axis.map (fun x =>
          sumOfRecord (l.filter (fun q => daysOfWk q == d)) x)).sum)).sum
        = ((l.filter (fun q => x_axis.contains (checkInHour q))).map
            (fun q => q.numberOfRecords)).sum := by
  intro l
  induction l with
  | nil => simp [sumOfRecord]
  | cons r t ih =>
    rw [bucket_sum_cons r t, ih, List.filter_cons]
    by_cases hc : (x_axis.contains (checkInHour r)) = true
    · rw [if_pos hc, List.map_cons, List.sum_cons]
      have : checkInHour r ∈ x_axis := List.elem_iff.mp hc
      rw [if_pos this]
    · rw [if_neg hc]
      have : checkInHour r ∉ x_axis := fun hm => hc (List.elem_iff.mpr hm)
      rw [if_neg this]
      omega

theorem sum_map_swap (A : List α) (B : List β) (f : α → β → Nat) :
    (A.map (fun a => (B.map (fun b => f a b)).sum)).sum
      = (B.map (fun b => (A.map (fun a => f a b)).sum)).sum := by
  induction A with
  | nil => simp
  | cons a as ih =>
    simp only [List.map_cons, List.sum_cons, ih]
    rw [sum_map_add B (fun b => f a b) (fun b => (as.map (fun a => f a b)).sum)]

theorem range7_day_map (F : String → Nat) :
    ((List.range 7).map (fun iy => F (day_list.getD iy ""))).sum = (day_list.map F).sum := by
  have h : List.range 7 = [0, 1, 2, 3, 4, 5, 6] := by decide
  rw [h]
  simp [day_list]

theorem range12_x_map (F : String → Nat) :
    ((List.range 12).map (fun ix => F (x_axis.getD ix ""))).sum = (x_axis.map F).sum := by
  have h : List.range 12 = [0, 1, 2, 3, 4, 5, 6, 7, 8, 9, 10, 11] := by decide
  have hx : x_axis = ["07 AM", "08 AM", "09 AM", "10 AM", "11 AM", "12 PM",
      "01 PM", "02 PM", "03 PM", "04 PM", "05 PM", "06 PM"] := by decide
  rw [h, hx]
  simp

set_option maxHeartbeats 1000000 in
theorem perClinic_sum (l : List Record) :
    ((List.range 7).map (fun iy => ((List.range 12).map (fun ix =>
        sumOfRecord (l.filter (fun q => daysOfWk q == day_list.getD iy ""))
          (x_axis.getD ix ""))).sum)).sum
      = ((l.filter (fun q => x_axis.contains (checkInHour q))).map
          (fun q => q.numberOfRecords)).sum := by
  rw [← bucket_sum l]
  rw [range7_day_map (fun d => ((List.range 12).map (fun ix =>
    sumOfRecord (l.filter (fun q => daysOfWk q == d)) (x_axis.getD ix ""))).sum)]
  apply congrArg List.sum
  apply List.map_congr_left
  intro d _
  exact range12_x_map (fun x => sumOfRecord (l.filter (fun q => daysOfWk q == d)) x)

set_option maxHeartbeats 1000000 in
theorem matrixSum_closedMatrix (df : List Record) (start stop : Nat)
    (cats clinics : List String) :
    matrixSum (closedMatrix df start stop cats clinics)
      = (clinics.map (fun c =>
          (((dateSlice (clinicFilter df c cats) start stop).filter
            (fun q => x_axis.contains (checkInHour q))).map
              (fun q => q.numberOfRecords)).sum)).sum := by
  unfold matrixSum closedMatrix
  rw [List.map_map]
  have hrow : (List.sum ∘ fun iy =>
      ((List.range 12).map fun ix =>
        (clinics.map (fun c => contrib df start stop cats c iy ix)).sum)
        ++ List.replicate 12 0)
      = fun iy => ((List.range 12).map fun ix =>
          (clinics.map (fun c => contrib df start stop cats c iy ix)).sum).sum := by
    funext iy
    simp [List.sum_append]
  rw [hrow]
  have hswap1 : ((List.range 7).map (fun iy => ((List.range 12).map (fun ix =>
      (clinics.map (fun c => contrib df start stop cats c iy ix)).sum)).sum))
      = (List.range 7).map (fun iy => (clinics.map (fun c =>
          ((List.range 12).map (fun ix => contrib df start stop cats c iy ix)).sum)).sum) := by
    apply List.map_congr_left
    intro iy _
    exact sum_map_swap (List.range 12) clinics
      (fun ix c => contrib df start stop cats c iy ix)
  rw [hswap1]
  rw [sum_map_swap (List.range 7) clinics (fun iy c =>
    ((List.range 12).map (fun ix => contrib df start stop cats c iy ix)).sum)]
  apply congrArg List.sum
  apply List.map_congr_left
  intro c _
  have h := perClinic_sum (dateSlice (clinicFilter df c cats) start stop)
  simp only [contrib]
  exact h

theorem sum_filter_le (f : Record → Nat) (p : Record → Bool) :
    ∀ (l : List Record), ((l.filter p).map f).sum ≤ (l.map f).sum := by
  intro l
  induction l with
  | nil => simp
  | cons r t ih =>
    rw [List.filter_cons]
    by_cases h : p r = true
    · rw [if_pos h]
      simp only [List.map_cons, List.sum_cons]
      omega
    · rw [if_neg h]
      simp only [List.map_cons, List.sum_cons]
      omega

theorem sum_filter_eq_iff (f : Record → Nat) (p : Record → Bool) :
    ∀ (l : List Record),
      (((l.filter p).map f).sum = (l.map f).sum ↔ ∀ r ∈ l, p r = false → f r = 0) := by
  intro l
  induction l with
  | nil => simp
  | cons r t ih =>
    have hle := sum_filter_le f p t
    rw [List.filter_cons]
    by_cases h : p r = true
    · rw [if_pos h]
      simp only [List.map_cons, List.sum_cons]
      constructor
      · intro he q hq hpq
        rcases List.mem_cons.mp hq with rfl | hq'
        · rw [hpq] at h
          exact absurd h (by simp)
        · exact (ih.mp (by omega)) q hq' hpq
      · intro hall
        have hta : ∀ q ∈ t, p q = false → f q = 0 :=
          fun q hq => hall q (List.mem_cons_of_mem _ hq)
        rw [ih.mpr hta]
    · rw [if_neg h]
      have hf : p r = false := by
        revert h
        cases p r <;> simp
      simp only [List.map_cons, List.sum_cons]
      constructor
      · intro he
        have hfr : f r = 0 := by omega
        intro q hq hpq
        rcases List.mem_cons.mp hq with rfl | hq'
        · exact hfr
        · exact (ih.mp (by omega)) q hq' hpq
      · intro hall
        have hfr : f r = 0 := hall r (List.mem_cons_self r t) hf
        have hta : ∀ q ∈ t, p q = false → f q = 0 :=
          fun q hq => hall q (List.mem_cons_of_mem _ hq)
        rw [ih.mpr hta, hfr]
        omega

theorem sum_map_le_and_eq_iff (g h : α → Nat) :
    ∀ (L : List α), (∀ x ∈ L, g x ≤ h x) →
      ((L.map g).sum ≤ (L.map h).sum
        ∧ ((L.map g).sum = (L.map h).sum ↔ ∀ x ∈ L, g x = h x)) := by
  intro L
  induction L with
  | nil => intro _; simp
  | cons a t ih =>
    intro hle
    obtain ⟨hat1, hat2⟩ := ih (fun x hx => hle x (List.mem_cons_of_mem _ hx))
    have ha := hle a (List.mem_cons_self a t)
    simp only [List.map_cons, List.sum_cons]
    constructor
    · omega
    · constructor
      · intro he
        have h1 : g a = h a := by omega
        have h2 : (t.map g).sum = (t.map h).sum := by omega
        intro x hx
        rcases List.mem_cons.mp hx with rfl | hx'
        · exact h1
        · exact (hat2.mp h2) x hx'
      · intro hall
        have h1 : g a = h a := hall a (List.mem_cons_self a t)
        have h2 : (t.map g).sum = (t.map h).sum :=
          hat2.mpr (fun x hx => hall x (List.mem_cons_of_mem _ hx))
        omega

theorem closedMatrix_of_contrib_zero (df : List Record) (start stop : Nat)
    (cats clinics : List String)
    (h : ∀ c ∈ clinics, ∀ iy ix, ix < 12 → contrib df start stop cats c iy ix = 0) :
    closedMatrix df start stop cats clinics = npZeros 7 24 := by
  unfold closedMatrix npZeros
  have hrow : ∀ iy, ((List.range 12).map (fun ix =>
      (clinics.map (fun c => contrib df start stop cats c iy ix)).sum))
      = List.replicate 12 0 := by
    intro iy
    have hc : ((List.range 12).map (fun ix =>
        (clinics.map (fun c => contrib df start stop cats c iy ix)).sum))
        = (List.range 12).map (fun _ => 0) := by
      apply List.map_congr_left
      intro ix hix
      apply List.sum_eq_zero
      intro v hv
      obtain ⟨c, hcmem, rfl⟩ := List.mem_map.mp hv
      exact h c hcmem iy ix (List.mem_range.mp hix)
    rw [hc, map_const_range]
  have hrows : ((List.range 7).map (fun iy =>
      ((List.range 12).map (fun ix =>
        (clinics.map (fun c => contrib df start stop cats c iy ix)).sum))
        ++ List.replicate 12 0))
      = (List.range 7).map (fun _ => List.replicate 24 0) := by
    apply List.map_congr_left
    intro iy _
    rw [hrow iy, ← List.replicate_add]
  rw [hrows, map_const_range]

theorem contrib_of_dateSlice_nil {df : List Record} {start stop : Nat}
    {cats : List String} {c : String}
    (h : dateSlice (clinicFilter df c cats) start stop = []) (iy ix : Nat) :
    contrib df start stop cats c iy ix = 0 := by
  unfold contrib
  rw [h]
  rfl

theorem clinicFilter_empty_cats (df : List Record) (c : String) :
    clinicFilter df c [] = [] := by
  unfold clinicFilter
  apply List.filter_eq_nil_iff.mpr
  intro r _
  simp [List.contains]

theorem dateSlice_reversed {l : List Record} {start stop : Nat} (h : stop < start) :
    dateSlice l start stop = [] := by
  unfold dateSlice
  apply List.filter_eq_nil_iff.mpr
  intro r _
  simp only [Bool.and_eq_true, decide_eq_true_eq, not_and]
  omega

theorem contrib_zero_of_hour_notin {df : List Record} (start stop : Nat)
    (cats : List String) (c : String)
    (h : ∀ r ∈ df, checkInHour r ∉ x_axis) (iy : Nat) {ix : Nat} (hix : ix < 12) :
    contrib df start stop cats c iy ix = 0 := by
  unfold contrib sumOfRecord
  have hnil : ((dateSlice (clinicFilter df c cats) start stop).filter
      (fun q => daysOfWk q == day_list.getD iy "")).filter
      (fun q => checkInHour q == x_axis.getD ix "") = [] := by
    apply List.filter_eq_nil_iff.mpr
    intro q hq
    have hqdf : q ∈ df :=
      List.mem_of_mem_filter (mem_of_mem_dateSlice (List.mem_of_mem_filter hq))
    intro hbeq
    have heq : checkInHour q = x_axis.getD ix "" := by simpa using hbeq
    exact h q hqdf (heq ▸ x_axis_getD_mem hix)
  rw [hnil]
  rfl

theorem contains_iff (l : List String) (a : String) : l.contains a = true ↔ a ∈ l :=
  List.elem_iff

/-- C7: with exactly the two records (entity "A", category "X", Monday
08:15, count 3) and (entity "A", category "X", same Monday 08:45, count
2) — in the epoch model day 0 is a Monday, so 08:15 is second 29700 and
08:45 is second 31500 — aggregating with entity selection ["A"],
categories ["X"] and a date range covering that Monday yields a matrix
whose Monday row has 5 in the "08 AM" column (index 1) and zeros
everywhere else, and the totals sequence [("A", 5)]. -/
theorem concrete_monday_scenario :
    (update_heatmap [⟨"A", "X", 29700, 3⟩, ⟨"A", "X", 31500, 2⟩] 0 1 ["A"] ["X"]).z
      = (List.replicate 24 0).set 1 5 :: List.replicate 6 (List.replicate 24 0)
    ∧ update_patient_volume_table [⟨"A", "X", 29700, 3⟩, ⟨"A", "X", 31500, 2⟩] ["A"] ["X"]
      = [⟨"A", 5⟩] := by
  constructor
  · decide
  · decide

/-- C8: the two aggregations as store-passing calls: each call leaves the
record store exactly as received, and a second call with the same
parameters on the store left by the first returns the identical result.
In the embedding both calls are pure functions of the store and the
parameters, mirroring that the source never reassigns or mutates the
loaded frame (all its frame operations return fresh objects). -/
theorem aggregation_pure_idempotent (df : List Record) (start stop : Nat)
    (clinics cats : List String) :
    (heatmapRun df start stop clinics cats).2 = df
    ∧ (heatmapRun (heatmapRun df start stop clinics cats).2 start stop clinics cats).1
        = (heatmapRun df start stop clinics cats).1
    ∧ (heatmapRun (heatmapRun df start stop clinics cats).2 start stop clinics cats).2 = df
    ∧ (tableRun df clinics cats).2 = df
    ∧ (tableRun (tableRun df clinics cats).2 clinics cats).1 = (tableRun df clinics cats).1
    ∧ (tableRun (tableRun df clinics cats).2 clinics cats).2 = df :=
  ⟨rfl, rfl, rfl, rfl, rfl, rfl⟩

/-- C10: when the selected start date is strictly later than the end
date, the heatmap callback still returns (no exception is possible for a
total function) and its matrix is the all-zero 7×24 matrix: the date
slice over the sorted records is empty, so nothing contributes. -/
theorem reversed_range_zero (df : List Record) (clinics cats : List String)
    (start_date end_date : Nat) (h : end_date < start_date) :
    (update_heatmap df start_date end_date clinics cats).z = npZeros 7 24 := by
  show heatZ df (start_date * 86400) (end_date * 86400) clinics cats = npZeros 7 24
  rw [heatZ_eq_closedMatrix]
  apply closedMatrix_of_contrib_zero
  intro c _ iy ix _
  exact contrib_of_dateSlice_nil (dateSlice_reversed (by omega)) iy ix

theorem reversed_range_zero_witness :
    (0 : Nat) < 1
    ∧ (update_heatmap [⟨"A", "X", 0, 3⟩] 1 0 ["A"] ["X"]).z = npZeros 7 24 :=
  ⟨by decide, reversed_range_zero [⟨"A", "X", 0, 3⟩] ["A"] ["X"] 1 0 (by decide)⟩

/-- C5: an empty category selection selects no records: for every store,
date range and entity selection the matrix is the all-zero matrix of the
fixed shape and every totals row is zero; likewise an empty entity
selection yields the all-zero matrix of the fixed shape. -/
theorem empty_selection_zero (df : List Record) (start stop : Nat)
    (clinics cats : List String) :
    heatZ df start stop clinics [] = npZeros 7 24
    ∧ (update_patient_volume_table df clinics []).all
        (fun row => row.totalRecords == 0) = true
    ∧ heatZ df start stop [] cats = npZeros 7 24 := by
  refine ⟨?_, ?_, rfl⟩
  · rw [heatZ_eq_closedMatrix]
    apply closedMatrix_of_contrib_zero
    intro c _ iy ix _
    exact contrib_of_dateSlice_nil (by rw [clinicFilter_empty_cats]; rfl) iy ix
  · cases clinics with
    | nil => rfl
    | cons a t =>
      rw [update_patient_volume_table, if_neg (by simp)]
      rw [List.all_eq_true]
      intro row hrow
      obtain ⟨c, hc, rfl⟩ := List.mem_map.mp hrow
      simp [clinicFilter_empty_cats]

/-- C2 amended: the heatmap payload has fixed dimensions for every filter
selection — 7 weekday rows in the order Monday through Sunday and 24
columns (the matrix is allocated as np.zeros((7, 24))), of which only the
first 12, labelled by the supplied x axis "07 AM" … "06 PM", are ever
populated; the 12 trailing columns are always zero, and an empty entity
selection yields the all-zero 7×24 matrix, never a resized one. -/
theorem heatmap_matrix_shape (df : List Record) (start stop : Nat)
    (clinics cats : List String) :
    (generate_patient_volume_heatmap df start stop clinics cats).z.length = 7
    ∧ (generate_patient_volume_heatmap df start stop clinics cats).z.map List.length
        = List.replicate 7 24
    ∧ (generate_patient_volume_heatmap df start stop clinics cats).x = x_axis
    ∧ x_axis.length = 12
    ∧ (generate_patient_volume_heatmap df start stop clinics cats).y
        = ["Monday", "Tuesday", "Wednesday", "Thursday", "Friday", "Saturday", "Sunday"]
    ∧ (generate_patient_volume_heatmap df start stop [] cats).z = npZeros 7 24
    ∧ (generate_patient_volume_heatmap df start stop clinics cats).z.map
        (fun row => row.drop 12) = List.replicate 7 (List.replicate 12 0) := by
  refine ⟨?_, heatZ_shape df start stop clinics cats, rfl, rfl, rfl, rfl, ?_⟩
  · simpa using congrArg List.length (heatZ_shape df start stop clinics cats)
  · show (heatZ df start stop clinics cats).map (fun row => row.drop 12)
      = List.replicate 7 (List.replicate 12 0)
    rw [heatZ_eq_closedMatrix]
    unfold closedMatrix
    rw [List.map_map]
    have h : ((fun row => List.drop 12 row) ∘ fun iy =>
        ((List.range 12).map fun ix =>
          (clinics.map (fun c => contrib df start stop cats c iy ix)).sum)
          ++ List.replicate 12 0)
        = fun _ => List.replicate 12 0 := by
      funext iy
      show (((List.range 12).map fun ix =>
        (clinics.map (fun c => contrib df start stop cats c iy ix)).sum)
          ++ List.replicate 12 0).drop 12 = List.replicate 12 0
      have hl : ((List.range 12).map fun ix =>
          (clinics.map (fun c => contrib df start stop cats c iy ix)).sum).length = 12 := by
        simp
      nth_rewrite 1 [← hl]
      rw [List.drop_left]
    rw [h, map_const_range]

/-- C2 counterexample: at a concrete input the z matrix row has 24
columns, not the 12 columns the claim states. -/
theorem heatmap_matrix_shape_cex :
    ((generate_patient_volume_heatmap [] 0 0 [] []).z.headD []).length = 24
    ∧ ((generate_patient_volume_heatmap [] 0 0 [] []).z.headD []).length ≠ 12 := by
  exact ⟨by decide, by decide⟩

/-- C6: permuting the entity selection list leaves the accumulated
matrix unchanged (counts are natural numbers in the model, so the equality
is exact): every cell is the sum over the selection list of that clinic's
contribution, and sums of permuted lists agree. -/
theorem heatmap_perm_invariant (df : List Record) (start stop : Nat)
    (clinics clinics' cats : List String) (h : clinics.Perm clinics') :
    heatZ df start stop clinics cats = heatZ df start stop clinics' cats := by
  rw [heatZ_eq_closedMatrix, heatZ_eq_closedMatrix]
  unfold closedMatrix
  apply List.map_congr_left
  intro iy _
  congr 1
  apply List.map_congr_left
  intro ix _
  exact List.Perm.sum_eq (h.map (fun c => contrib df start stop cats c iy ix))

theorem heatmap_perm_invariant_witness :
    heatZ [⟨"A", "X", 29700, 3⟩] 0 86400 ["A", "B"] ["X"]
      = heatZ [⟨"A", "X", 29700, 3⟩] 0 86400 ["B", "A"] ["X"] :=
  heatmap_perm_invariant [⟨"A", "X", 29700, 3⟩] 0 86400 ["A", "B"] ["B", "A"] ["X"]
    (List.Perm.swap "B" "A" [])

/-- C3: the totals callback returns exactly one row per selected entity,
in the caller-supplied order, whose total is the sum of the weight column
over the records of that single entity whose category is in the selected
set — with no date restriction anywhere in the computation — and an empty
entity selection returns the empty list (not an error, not all
entities). -/
theorem totals_rows (df : List Record) (clinics cats : List String) :
    update_patient_volume_table df clinics cats
      = clinics.map (fun c =>
          { clinicName := c,
            totalRecords := ((df.filter (fun r =>
              decide (r.clinicName = c ∧ r.admitSource ∈ cats))).map
                (fun r => r.numberOfRecords)).sum })
    ∧ update_patient_volume_table df [] cats = []
    ∧ (update_patient_volume_table df clinics cats).length = clinics.length := by
  have hfilter : ∀ c : String, clinicFilter df c cats
      = df.filter (fun r => decide (r.clinicName = c ∧ r.admitSource ∈ cats)) := by
    intro c
    unfold clinicFilter
    apply List.filter_congr
    intro r _
    rw [Bool.eq_iff_iff]
    simp only [Bool.and_eq_true, beq_iff_eq, decide_eq_true_eq]
    constructor
    · rintro ⟨h1, h2⟩
      exact ⟨h1, (contains_iff cats r.admitSource).mp h2⟩
    · rintro ⟨h1, h2⟩
      exact ⟨h1, (contains_iff cats r.admitSource).mpr h2⟩
  refine ⟨?_, rfl, ?_⟩
  · cases clinics with
    | nil => rfl
    | cons a t =>
      rw [update_patient_volume_table, if_neg (by simp)]
      apply List.map_congr_left
      intro c _
      rw [hfilter c]
  · cases clinics with
    | nil => rfl
    | cons a t =>
      rw [update_patient_volume_table, if_neg (by simp)]
      simp

/-- C9: a clinic occurring n times in the selection is accumulated once
per occurrence: the matrix of the selection made of n copies of one
clinic is the matrix of the singleton selection with every cell
multiplied by n, the totals list is the n-fold repetition of that
clinic's row, and in general the totals list has one row per occurrence
in the selection (no deduplication). -/
theorem duplicate_entity_multiplicity (df : List Record) (start stop : Nat)
    (cats : List String) (c : String) (n : Nat) :
    heatZ df start stop (List.replicate n c) cats
      = matScale n (heatZ df start stop [c] cats)
    ∧ update_patient_volume_table df (List.replicate n c) cats
      = List.replicate n
          { clinicName := c,
            totalRecords := ((clinicFilter df c cats).map (fun r => r.numberOfRecords)).sum }
    ∧ ∀ clinics : List String,
        (update_patient_volume_table df clinics cats).length = clinics.length := by
  refine ⟨?_, ?_, ?_⟩
  · rw [heatZ_eq_closedMatrix, heatZ_eq_closedMatrix]
    unfold closedMatrix matScale
    rw [List.map_map]
    apply List.map_congr_left
    intro iy _
    show ((List.range 12).map fun ix =>
        ((List.replicate n c).map (fun c' => contrib df start stop cats c' iy ix)).sum)
        ++ List.replicate 12 0
      = (((List.range 12).map fun ix =>
          (([c]).map (fun c' => contrib df start stop cats c' iy ix)).sum)
        ++ List.replicate 12 0).map (fun v => n * v)
    rw [List.map_append, List.map_map]
    congr 1
    · apply List.map_congr_left
      intro ix _
      show ((List.replicate n c).map (fun c' => contrib df start stop cats c' iy ix)).sum
        = n * (([c]).map (fun c' => contrib df start stop cats c' iy ix)).sum
      rw [List.map_replicate, List.sum_replicate, smul_eq_mul]
      simp
  · cases n with
    | zero => rfl
    | succ m =>
      rw [update_patient_volume_table, if_neg (by simp), List.map_replicate]
  · intro clinics
    cases clinics with
    | nil => rfl
    | cons a t =>
      rw [update_patient_volume_table, if_neg (by simp)]
      simp

/-- C4 amended: for every selection, the sum of all matrix cells is at
most the sum of the counts of all filtered records (counted clinic by
clinic, as the loop does), and the two are equal exactly when every
filtered record with a nonzero count has its hour label in the fixed
column set.  Records whose hour label falls outside the columns never
contribute to the matrix; a record with count zero is also invisible in
the matrix but still vacuous in the sums, which is why the claim's
unqualified "exactly when every matched record's hour label lies in the
column set" fails (see the counterexample). -/
theorem matrix_sum_le_filtered (df : List Record) (start stop : Nat)
    (clinics cats : List String) :
    matrixSum (heatZ df start stop clinics cats)
      ≤ filteredCountSum df start stop clinics cats
    ∧ (matrixSum (heatZ df start stop clinics cats)
        = filteredCountSum df start stop clinics cats
      ↔ ∀ c ∈ clinics, ∀ r ∈ dateSlice (clinicFilter df c cats) start stop,
          r.numberOfRecords ≠ 0 → checkInHour r ∈ x_axis) := by
  rw [heatZ_eq_closedMatrix, matrixSum_closedMatrix]
  unfold filteredCountSum
  obtain ⟨hle, hiff⟩ := sum_map_le_and_eq_iff
    (fun c => (((dateSlice (clinicFilter df c cats) start stop).filter
      (fun q => x_axis.contains (checkInHour q))).map (fun q => q.numberOfRecords)).sum)
    (fun c => ((dateSlice (clinicFilter df c cats) start stop).map
      (fun q => q.numberOfRecords)).sum)
    clinics
    (fun c _ => sum_filter_le (fun q => q.numberOfRecords)
      (fun q => x_axis.contains (checkInHour q))
      (dateSlice (clinicFilter df c cats) start stop))
  refine ⟨hle, ?_⟩
  rw [hiff]
  constructor
  · intro hall c hc r hr hcnt
    have hper := (sum_filter_eq_iff (fun q => q.numberOfRecords)
      (fun q => x_axis.contains (checkInHour q))
      (dateSlice (clinicFilter df c cats) start stop)).mp (hall c hc) r hr
    by_contra hnot
    have hpf : x_axis.contains (checkInHour r) = false := by
      cases hb : x_axis.contains (checkInHour r)
      · rfl
      · exact absurd ((contains_iff x_axis (checkInHour r)).mp hb) hnot
    exact hcnt (hper hpf)
  · intro hall c hc
    apply (sum_filter_eq_iff (fun q => q.numberOfRecords)
      (fun q => x_axis.contains (checkInHour q))
      (dateSlice (clinicFilter df c cats) start stop)).mpr
    intro r hr hpf
    by_cases hcnt : r.numberOfRecords = 0
    · exact hcnt
    · exfalso
      have hmem := hall c hc r hr hcnt
      rw [(contains_iff x_axis (checkInHour r)).mpr hmem] at hpf
      exact Bool.true_eq_false.mp hpf

/-- C4 counterexample: a single filtered record with count 0 at a Monday
06:00 check-in (hour label "06 AM", outside the column set) makes the
matrix sum equal to the filtered count sum even though this matched
record's hour label does not lie in the fixed column set, so "equality
exactly when every matched record's hour label lies within the columns"
is false as stated. -/
theorem matrix_sum_le_filtered_cex :
    matrixSum (heatZ [⟨"A", "X", 21600, 0⟩] 0 86400 ["A"] ["X"])
      = filteredCountSum [⟨"A", "X", 21600, 0⟩] 0 86400 ["A"] ["X"]
    ∧ (⟨"A", "X", 21600, 0⟩ : Record)
        ∈ dateSlice (clinicFilter [⟨"A", "X", 21600, 0⟩] "A" ["X"]) 0 86400
    ∧ checkInHour ⟨"A", "X", 21600, 0⟩ ∉ x_axis :=
  ⟨by decide, by decide, by decide⟩

/-- C1 amended: the date slice's upper bound is inclusive, not exclusive:
a record timestamped exactly at the end date's midnight is selected by
the slice (the callback passes "end 00:00:00" and label slicing keeps
both endpoint labels), and so is a record one second before midnight.
Neither record shows up in the heatmap matrix, but only because their
hour labels — "12 AM" for midnight and "11 PM" for one second before —
lie outside the fixed 07 AM…06 PM column set, not because of any range
exclusion. -/
theorem heatmap_end_boundary (start_date end_date : Nat) (r₁ r₂ : Record)
    (c : String) (cats : List String)
    (hlt : start_date < end_date)
    (ht1 : r₁.checkInTime = end_date * 86400)
    (ht2 : r₂.checkInTime = end_date * 86400 - 1)
    (hc1 : r₁.clinicName = c) (hc2 : r₂.clinicName = c)
    (hm1 : r₁.admitSource ∈ cats) (hm2 : r₂.admitSource ∈ cats) :
    r₁ ∈ dateSlice (clinicFilter [r₁] c cats) (start_date * 86400) (end_date * 86400)
    ∧ r₂ ∈ dateSlice (clinicFilter [r₂] c cats) (start_date * 86400) (end_date * 86400)
    ∧ (update_heatmap [r₁] start_date end_date [c] cats).z = npZeros 7 24
    ∧ (update_heatmap [r₂] start_date end_date [c] cats).z = npZeros 7 24 := by
  have hfilter : ∀ r : Record, r.clinicName = c → r.admitSource ∈ cats →
      clinicFilter [r] c cats = [r] := by
    intro r h1 h2
    unfold clinicFilter
    rw [List.filter_cons]
    rw [if_pos (by
      rw [Bool.and_eq_true]
      exact ⟨beq_iff_eq.mpr h1, (contains_iff cats r.admitSource).mpr h2⟩)]
    rfl
  have hmem : ∀ r : Record, clinicFilter [r] c cats = [r] →
      start_date * 86400 ≤ r.checkInTime → r.checkInTime ≤ end_date * 86400 →
      r ∈ dateSlice (clinicFilter [r] c cats) (start_date * 86400) (end_date * 86400) := by
    intro r hf hlo hhi
    unfold dateSlice
    rw [hf]
    apply List.mem_filter.mpr
    refine ⟨?_, ?_⟩
    · rw [show sortValues [r] = [r] from rfl]
      exact List.mem_cons_self r []
    · rw [Bool.and_eq_true]
      exact ⟨decide_eq_true hlo, decide_eq_true hhi⟩
  have hz : ∀ r : Record, checkInHour r ∉ x_axis →
      (update_heatmap [r] start_date end_date [c] cats).z = npZeros 7 24 := by
    intro r hr
    show heatZ [r] (start_date * 86400) (end_date * 86400) [c] cats = npZeros 7 24
    rw [heatZ_eq_closedMatrix]
    apply closedMatrix_of_contrib_zero
    intro c' _ iy ix hix
    refine contrib_zero_of_hour_notin (start_date * 86400) (end_date * 86400) cats c'
      (fun q hq => ?_) iy hix
    rcases List.mem_singleton.mp hq with rfl
    exact hr
  have hh1 : checkInHour r₁ ∉ x_axis := by
    unfold checkInHour
    rw [ht1]
    have hmod : end_date * 86400 % 86400 = 0 := by omega
    rw [hmod]
    decide
  have hh2 : checkInHour r₂ ∉ x_axis := by
    unfold checkInHour
    rw [ht2]
    have hmod : (end_date * 86400 - 1) % 86400 = 86399 := by omega
    rw [hmod]
    decide
  refine ⟨?_, ?_, hz r₁ hh1, hz r₂ hh2⟩
  · exact hmem r₁ (hfilter r₁ hc1 hm1) (by omega) (by omega)
  · exact hmem r₂ (hfilter r₂ hc2 hm2) (by omega) (by omega)

theorem heatmap_end_boundary_witness :
    (0 : Nat) < 7
    ∧ ((⟨"A", "X", 604800, 5⟩ : Record)
        ∈ dateSlice (clinicFilter [⟨"A", "X", 604800, 5⟩] "A" ["X"]) (0 * 86400) (7 * 86400)
      ∧ (⟨"A", "X", 604799, 5⟩ : Record)
        ∈ dateSlice (clinicFilter [⟨"A", "X", 604799, 5⟩] "A" ["X"]) (0 * 86400) (7 * 86400)
      ∧ (update_heatmap [⟨"A", "X", 604800, 5⟩] 0 7 ["A"] ["X"]).z = npZeros 7 24
      ∧ (update_heatmap [⟨"A", "X", 604799, 5⟩] 0 7 ["A"] ["X"]).z = npZeros 7 24) :=
  ⟨by decide,
    heatmap_end_boundary 0 7 ⟨"A", "X", 604800, 5⟩ ⟨"A", "X", 604799, 5⟩ "A" ["X"]
      (by decide) rfl rfl rfl rfl (by decide) (by decide)⟩

/-- C1 counterexample: with the end date being day 7 of the model, a
record timestamped one second before the end date's midnight (second
604799, a Sunday 23:59:59 check-in) is kept by the date slice, yet the
heatmap matrix it produces is all zero — the record is not included in
the matrix, contrary to the claim; its hour label is "11 PM", outside the
fixed column set. -/
theorem heatmap_end_boundary_cex :
    (⟨"A", "X", 604799, 5⟩ : Record)
      ∈ dateSlice (clinicFilter [⟨"A", "X", 604799, 5⟩] "A" ["X"]) 0 604800
    ∧ checkInHour ⟨"A", "X", 604799, 5⟩ = "11 PM"
    ∧ (update_heatmap [⟨"A", "X", 604799, 5⟩] 0 7 ["A"] ["X"]).z = npZeros 7 24 :=
  ⟨by decide, by decide, by decide⟩
